import Mathlib

/-!
Verification of the FEN encode/decode core of the chess engine
(`src/chess/game/fen.rs`).

The Rust source is shallowly embedded below.  `usize` arithmetic is
modelled on `Nat`, with the places where the Rust code would panic
(out-of-bounds indexing into the split FEN fields, unsigned-integer
underflow in the en-passant rank translation) made explicit through the
`RunResult.panic` constructor on the decoder side and `Option.none` on
the encoder side.

The `Board`, `Color`, `PieceType` and `FromFenError` items live in other
modules of the crate that are not part of the sources under review; the
board is therefore modelled from the specification as an abstract
collaborator (`BoardModel`), and the enumerations are reconstructed from
the constructor names used in `fen.rs`.
-/

/-- The color of a piece / the side to move (crate item `Color`). -/
inductive Color : Type where
  | White : Color
  | Black : Color
deriving DecidableEq, Repr

/-- Piece kinds (crate item `PieceType`; only `Pawn` is inspected by `fen.rs`). -/
inductive PieceType : Type where
  | Pawn : PieceType
  | Knight : PieceType
  | Bishop : PieceType
  | Rook : PieceType
  | Queen : PieceType
  | King : PieceType
deriving DecidableEq, Repr

/-- A piece on a tile: the fields `piece_type` and `color` read by `fen.rs`. -/
structure Piece : Type where
  piece_type : PieceType
  color : Color
deriving DecidableEq, Repr

/-- The error enumeration `FromFenError`, with exactly the variants used in `fen.rs`. -/
inductive FromFenError : Type where
  | IncorrectAmountOfParts : FromFenError
  | InvalidPlacement : FromFenError
  | UnknownTurn : FromFenError
  | IncorrectLength : FromFenError
  | RepeatingCharactersInCastlingPart : FromFenError
  | UnknownCharacter : FromFenError
  | IncorrectAmountOfTiles : FromFenError
  | InvalidEnPassant : FromFenError
deriving DecidableEq, Repr

/-- Outcome of running a Rust function that may panic: either a panic
(out-of-bounds index or integer underflow in debug builds), a returned
`Err`, or a returned `Ok`. -/
inductive RunResult (ε : Type) (α : Type) : Type where
  | panic : RunResult ε α
  | err : ε → RunResult ε α
  | ok : α → RunResult ε α
deriving DecidableEq, Repr

/-- Modelled from the spec: the external board collaborator (`Board::from_fen`,
`Board::fen`, `Board::get_tile`) is not among the sources under review.  The
spec describes it as an opaque, never-panicking codec for the piece-placement
field plus a total tile query on the inverted internal rank axis, so it is
modelled as an abstract structure of three total functions; `from_fen`
returning `none` stands for the board decoder's error (wrapped by the game
decoder as `InvalidPlacement`). -/
structure BoardModel (β : Type) : Type where
  from_fen : String → Option β
  fen : β → String
  get_tile : β → Nat → Nat → Option Piece

/-- The game state built by `Game::from_fen` (fields of crate item `Game`
read or written in `fen.rs`, in source order). -/
structure Game (β : Type) : Type where
  board : β
  turn : Color
  en_passant : Option (Nat × Nat)
  white_kingside_castle : Bool
  white_queenside_castle : Bool
  black_kingside_castle : Bool
  black_queenside_castle : Bool
deriving DecidableEq, Repr

/-- Rust's `str::split(' ')` on the character list of the input: splits at
every single space, keeping empty pieces, and always returns at least one
piece. -/
def splitSpace : List Char → List (List Char)
  | [] => [[]]
  | c :: cs =>
    if c = ' ' then [] :: splitSpace cs
    else
      match splitSpace cs with
      | [] => [[c]]
      | p :: ps => (c :: p) :: ps

instance {ε α : Type} [DecidableEq ε] [DecidableEq α] : DecidableEq (Except ε α)
  | .error a, .error b =>
    if h : a = b then isTrue (by rw [h]) else isFalse (fun hh => h (Except.error.inj hh))
  | .error _, .ok _ => isFalse (fun hh => Except.noConfusion hh)
  | .ok _, .error _ => isFalse (fun hh => Except.noConfusion hh)
  | .ok a, .ok b =>
    if h : a = b then isTrue (by rw [h]) else isFalse (fun hh => h (Except.ok.inj hh))

/-- Inverse of `splitSpace`: interleave the pieces with single spaces.  Used
to state what a split of the input into exactly four fields says about the
input text itself. -/
def joinSpace : List (List Char) → List Char
  | [] => []
  | [p] => p
  | p :: ps => p ++ ' ' :: joinSpace ps

/-- The inner loop of `castling_part` (`fen.rs` lines 150-158): walk the
characters, setting the four flags, failing on the first character outside
`K`, `Q`, `k`, `q`. -/
def castlingLoop : List Char → Bool × Bool × Bool × Bool →
    Except FromFenError (Bool × Bool × Bool × Bool)
  | [], castling => .ok castling
  | c :: cs, (wk, wq, bk, bq) =>
    if c = 'K' then castlingLoop cs (true, wq, bk, bq)
    else if c = 'Q' then castlingLoop cs (wk, true, bk, bq)
    else if c = 'k' then castlingLoop cs (wk, wq, true, bq)
    else if c = 'q' then castlingLoop cs (wk, wq, bk, true)
    else .error FromFenError.UnknownCharacter

/-- `castling_part` (`fen.rs` lines 134-161).  The Rust duplicate test
compares the list length with the size of the `HashSet` of its characters,
which is exactly the `Nodup` test on the character list. -/
def castling_part (fen_part : String) : Except FromFenError (Bool × Bool × Bool × Bool) :=
  if fen_part = "-" then .ok (false, false, false, false)
  else if fen_part.data.length > 4 then .error FromFenError.IncorrectLength
  else if ¬ fen_part.data.Nodup then .error FromFenError.RepeatingCharactersInCastlingPart
  else castlingLoop fen_part.data (false, false, false, false)

/-- The file table of `en_passant` (`fen.rs` lines 174-184): `'a'`-`'h'`
to `0`-`7`, anything else is an unknown character. -/
def fileOfChar : Char → Option Nat
  | 'a' => some 0
  | 'b' => some 1
  | 'c' => some 2
  | 'd' => some 3
  | 'e' => some 4
  | 'f' => some 5
  | 'g' => some 6
  | 'h' => some 7
  | _ => none

/-- The rank table of `en_passant` (`fen.rs` lines 187-197): digits
`'1'`-`'8'` to the inverted internal rank `7`-`0`. -/
def rankOfChar : Char → Option Nat
  | '1' => some 7
  | '2' => some 6
  | '3' => some 5
  | '4' => some 4
  | '5' => some 3
  | '6' => some 2
  | '7' => some 1
  | '8' => some 0
  | _ => none

/-- The function `en_passant` of `fen.rs` (lines 163-200): `"-"` means no
en-passant square; otherwise exactly two characters, a file letter and a rank
digit.  (The source names it `en_passant`; inside `Game.from_fen` that name
would resolve to the `Game.en_passant` field, hence the `_part` suffix, in
line with `castling_part`.) -/
def en_passant_part (fen_part : String) : Except FromFenError (Option (Nat × Nat)) :=
  if fen_part = "-" then .ok none
  else
    match fen_part.data with
    | [c1, c2] =>
      match fileOfChar c1 with
      | none => .error FromFenError.UnknownCharacter
      | some file =>
        match rankOfChar c2 with
        | none => .error FromFenError.UnknownCharacter
        | some rank => .ok (some (file, rank))
    | _ => .error FromFenError.IncorrectAmountOfTiles

/-- `Game::from_fen` (`fen.rs` lines 22-78), parametrised by the board model.
The source indexes `fen_parts[0]`..`fen_parts[3]` *before* checking that the
split produced exactly 4 parts, so fewer than 4 parts is a panic
(out-of-bounds index), modelled by the wildcard arm.  For a Black-to-move
en-passant square on internal rank 0 the translation `ep_y - 1` underflows
`usize`, modelled by the `else .panic` branch of the guard. -/
def Game.from_fen (M : BoardModel β) (fen : String) : RunResult FromFenError (Game β) :=
  match (splitSpace fen.data).map (fun l => String.mk l) with
  | fen_part_pieces :: fen_part_turn :: fen_part_castling :: fen_part_en_passant :: rest =>
    if rest ≠ [] then .err FromFenError.IncorrectAmountOfParts
    else
      match M.from_fen fen_part_pieces with
      | none => .err FromFenError.InvalidPlacement
      | some board =>
        match (if fen_part_turn = "w" then some Color.White
               else if fen_part_turn = "b" then some Color.Black
               else none) with
        | none => .err FromFenError.UnknownTurn
        | some turn =>
          match castling_part fen_part_castling with
          | .error e => .err e
          | .ok (wk, wq, bk, bq) =>
            match en_passant_part fen_part_en_passant with
            | .error e => .err e
            | .ok none => .ok ⟨board, turn, none, wk, wq, bk, bq⟩
            | .ok (some (ep_x, ep_y)) =>
              if turn = Color.White ∨ 0 < ep_y then
                match M.get_tile board ep_x
                    (if turn = Color.White then ep_y + 1 else ep_y - 1) with
                | some piece =>
                  if piece.piece_type ≠ PieceType.Pawn ∨ piece.color = turn then
                    .err FromFenError.InvalidEnPassant
                  else
                    .ok ⟨board, turn,
                      some (ep_x, if turn = Color.White then ep_y + 1 else ep_y - 1),
                      wk, wq, bk, bq⟩
                | none => .err FromFenError.InvalidEnPassant
              else .panic
  | _ => .panic

/-- The turn field rendering of `Game::fen` (`fen.rs` lines 87-90). -/
def turnString : Color → String
  | Color.White => "w"
  | Color.Black => "b"

/-- The castling field rendering of `Game::fen` (`fen.rs` lines 92-113):
concatenate the letters of the set flags in the order `K`, `Q`, `k`, `q`,
substituting `"-"` for the empty string. -/
def castlingString (wk wq bk bq : Bool) : String :=
  let castling :=
    (if wk then "K" else "") ++ (if wq then "Q" else "") ++
    (if bk then "k" else "") ++ (if bq then "q" else "")
  if castling = "" then "-" else castling

/-- `Game::fen` (`fen.rs` lines 84-131), parametrised by the board model.
`none` marks the `usize` underflows of the source: `ep_y - 1` with
`ep_y = 0` when White is to move, and `7 - ep_y` when the translated rank
exceeds 7.  The `% 256` mirrors the `as u8` casts in the `char::from`
calls. -/
def Game.fen (M : BoardModel β) (g : Game β) : Option String :=
  match g.en_passant with
  | some (ep_x, ep_y) =>
    if g.turn = Color.Black ∨ 0 < ep_y then
      if (if g.turn = Color.White then ep_y - 1 else ep_y + 1) ≤ 7 then
        some (M.fen g.board ++ " " ++ turnString g.turn ++ " " ++
          castlingString g.white_kingside_castle g.white_queenside_castle
            g.black_kingside_castle g.black_queenside_castle ++ " " ++
          String.mk [Char.ofNat (('a'.toNat + ep_x) % 256),
            Char.ofNat (('1'.toNat +
              (7 - (if g.turn = Color.White then ep_y - 1 else ep_y + 1))) % 256)])
      else none
    else none
  | none =>
    some (M.fen g.board ++ " " ++ turnString g.turn ++ " " ++
      castlingString g.white_kingside_castle g.white_queenside_castle
        g.black_kingside_castle g.black_queenside_castle ++ " " ++ "-")

/-- The castling serializer as the specification words it: the letters of
the set rights, kept in the fixed order K, Q, k, q, then concatenated;
`"-"` exactly when no right is set.  Stated separately from
`castlingString` (the code's rendering) so that the code can be compared
against the spec's formulation. -/
def castlingSerializeSpec (wk wq bk bq : Bool) : String :=
  if wk = false ∧ wq = false ∧ bk = false ∧ bq = false then "-"
  else String.join (List.map Prod.fst
    (List.filter (fun p => p.2) [("K", wk), ("Q", wq), ("k", bk), ("q", bq)]))

/-- A concrete instance of the board collaborator used to evaluate the
decoder on closed inputs: the board is the placement text itself, the codec
round-trips it verbatim, and every tile is empty. -/
def TB : BoardModel String :=
  ⟨fun s => some s, fun s => s, fun _ _ _ => none⟩

/-- A second concrete instance whose tile query reports a White pawn on the
internal coordinate (2, 4): the board reached by `... b KQkq c3`. -/
def TBpawn : BoardModel String :=
  ⟨fun s => some s, fun s => s,
   fun _ x y => if x = 2 ∧ y = 4 then some ⟨PieceType.Pawn, Color.White⟩ else none⟩


theorem splitSpace_ne_nil (l : List Char) : splitSpace l ≠ [] := by
  cases l with
  | nil => simp [splitSpace]
  | cons c cs =>
    unfold splitSpace
    split
    · simp
    · split <;> simp

theorem joinSpace_nil_cons (p : List Char) (ps : List (List Char)) :
    joinSpace ([] :: p :: ps) = ' ' :: joinSpace (p :: ps) := by
  simp [joinSpace]

theorem joinSpace_cons_cons (c : Char) (p : List Char) (ps : List (List Char)) :
    joinSpace ((c :: p) :: ps) = c :: joinSpace (p :: ps) := by
  cases ps <;> simp [joinSpace]

theorem joinSpace_splitSpace (l : List Char) : joinSpace (splitSpace l) = l := by
  induction l with
  | nil => rfl
  | cons c cs ih =>
    unfold splitSpace
    split
    · rename_i hc
      subst hc
      cases hps : splitSpace cs with
      | nil => exact absurd hps (splitSpace_ne_nil cs)
      | cons p ps =>
        rw [hps] at ih
        rw [joinSpace_nil_cons, ih]
    · cases hps : splitSpace cs with
      | nil => exact absurd hps (splitSpace_ne_nil cs)
      | cons p ps =>
        rw [hps] at ih
        rw [joinSpace_cons_cons, ih]

theorem fileOfChar_eq (c : Char) :
    fileOfChar c = if 97 ≤ c.toNat ∧ c.toNat ≤ 104 then some (c.toNat - 97) else none := by
  unfold fileOfChar
  split
  case h_9 =>
    rename_i h1 h2 h3 h4 h5 h6 h7 h8
    rw [if_neg]
    rintro ⟨hlo, hhi⟩
    have hc : Char.ofNat c.toNat = c := Char.ofNat_toNat c
    set n := c.toNat with hn
    interval_cases n <;> subst hc <;>
      first
        | exact h1 (by decide) | exact h2 (by decide) | exact h3 (by decide)
        | exact h4 (by decide) | exact h5 (by decide) | exact h6 (by decide)
        | exact h7 (by decide) | exact h8 (by decide)
  all_goals decide

theorem rankOfChar_eq (c : Char) :
    rankOfChar c = if 49 ≤ c.toNat ∧ c.toNat ≤ 56 then some (56 - c.toNat) else none := by
  unfold rankOfChar
  split
  case h_9 =>
    rename_i h1 h2 h3 h4 h5 h6 h7 h8
    rw [if_neg]
    rintro ⟨hlo, hhi⟩
    have hc : Char.ofNat c.toNat = c := Char.ofNat_toNat c
    set n := c.toNat with hn
    interval_cases n <;> subst hc <;>
      first
        | exact h1 (by decide) | exact h2 (by decide) | exact h3 (by decide)
        | exact h4 (by decide) | exact h5 (by decide) | exact h6 (by decide)
        | exact h7 (by decide) | exact h8 (by decide)
  all_goals decide

theorem fileOfChar_some (c : Char) (x : Nat) (h : fileOfChar c = some x) :
    x ≤ 7 ∧ c.toNat = 97 + x := by
  rw [fileOfChar_eq] at h
  split at h
  · rename_i hr
    injection h with h
    omega
  · exact absurd h (by simp)

theorem rankOfChar_some (c : Char) (r : Nat) (h : rankOfChar c = some r) :
    r ≤ 7 ∧ c.toNat = 49 + (7 - r) := by
  rw [rankOfChar_eq] at h
  split at h
  · rename_i hr
    injection h with h
    omega
  · exact absurd h (by simp)

theorem char_toNat_eq (c : Char) (n : Nat) (hn : n < 256) (h : c.toNat = n) :
    Char.ofNat (n % 256) = c := by
  rw [Nat.mod_eq_of_lt hn, ← h, Char.ofNat_toNat]

theorem from_fen_ok_elim {β : Type} (M : BoardModel β) (s : String) (g : Game β)
    (h : Game.from_fen M s = RunResult.ok g) :
    ∃ P T C E : String,
      splitSpace s.data = [P.data, T.data, C.data, E.data] ∧
      M.from_fen P = some g.board ∧
      ((T = "w" ∧ g.turn = Color.White) ∨ (T = "b" ∧ g.turn = Color.Black)) ∧
      castling_part C = .ok (g.white_kingside_castle, g.white_queenside_castle,
        g.black_kingside_castle, g.black_queenside_castle) ∧
      ((en_passant_part E = .ok none ∧ g.en_passant = none) ∨
        (∃ x r, en_passant_part E = .ok (some (x, r)) ∧
          g.en_passant = some (x, if g.turn = Color.White then r + 1 else r - 1) ∧
          (g.turn = Color.Black → 1 ≤ r))) := by
  unfold Game.from_fen at h
  split at h
  case h_2 => exact absurd h (by simp)
  rename_i P T C E rest heq
  have hdata : splitSpace s.data = [P.data, T.data, C.data, E.data] ++ rest.map String.data := by
    have h2 := congrArg (List.map String.data) heq
    rw [List.map_map] at h2
    have h3 : (String.data ∘ fun l : List Char => String.mk l) = id := rfl
    rw [h3, List.map_id] at h2
    simpa using h2
  split at h
  · exact absurd h (by simp)
  rename_i hrest
  have hrest' : rest = [] := not_not.mp hrest
  subst hrest'
  simp only [List.map_nil, List.append_nil] at hdata
  refine ⟨P, T, C, E, hdata, ?_⟩
  split at h
  · exact absurd h (by simp)
  rename_i board hboard
  split at h
  · exact absurd h (by simp)
  rename_i turn hturn
  split at h
  · exact absurd h (by simp)
  rename_i r4 wk wq bk bq hcast
  have hturn2 : (T = "w" ∧ turn = Color.White) ∨ (T = "b" ∧ turn = Color.Black) := by
    split at hturn
    · rename_i hw
      exact Or.inl ⟨hw, (Option.some.inj hturn).symm⟩
    · split at hturn
      · rename_i hb
        exact Or.inr ⟨hb, (Option.some.inj hturn).symm⟩
      · exact absurd hturn (by simp)
  split at h
  · exact absurd h (by simp)
  · -- en-passant field parsed to none
    rename_i hep
    injection h with h
    subst h
    exact ⟨hboard, by simpa using hturn2, by simpa using hcast, Or.inl ⟨hep, rfl⟩⟩
  · -- en-passant field parsed to a coordinate
    rename_i ep_x ep_y hep
    split at h
    · rename_i hguard
      split at h
      · rename_i piece htile
        split at h
        · exact absurd h (by simp)
        rename_i hpiece
        injection h with h
        subst h
        refine ⟨hboard, by simpa using hturn2, by simpa using hcast,
          Or.inr ⟨ep_x, ep_y, hep, by simp, ?_⟩⟩
        intro hblack
        simp only [Game.turn] at hblack
        subst hblack
        rcases hguard with hg | hg
        · exact absurd hg (by simp)
        · omega
      · exact absurd h (by simp)
    · exact absurd h (by simp)

theorem castlingLoop_mem (l : List Char) (acc : Bool × Bool × Bool × Bool)
    (hall : ∀ c ∈ l, c = 'K' ∨ c = 'Q' ∨ c = 'k' ∨ c = 'q') :
    castlingLoop l acc = .ok (acc.1 || decide ('K' ∈ l), acc.2.1 || decide ('Q' ∈ l),
      acc.2.2.1 || decide ('k' ∈ l), acc.2.2.2 || decide ('q' ∈ l)) := by
  induction l generalizing acc with
  | nil => simp [castlingLoop]
  | cons c cs ih =>
    obtain ⟨wk, wq, bk, bq⟩ := acc
    have hall2 : ∀ d ∈ cs, d = 'K' ∨ d = 'Q' ∨ d = 'k' ∨ d = 'q' :=
      fun d hd => hall d (List.mem_cons_of_mem c hd)
    have hc := hall c (List.mem_cons_self c cs)
    rcases hc with rfl | rfl | rfl | rfl <;>
      simp [castlingLoop, ih _ hall2, List.mem_cons, Bool.or_assoc]

theorem castlingLoop_unknown (l : List Char) (acc : Bool × Bool × Bool × Bool)
    (hbad : ∃ c ∈ l, ¬(c = 'K' ∨ c = 'Q' ∨ c = 'k' ∨ c = 'q')) :
    castlingLoop l acc = .error FromFenError.UnknownCharacter := by
  induction l generalizing acc with
  | nil => simp at hbad
  | cons c cs ih =>
    obtain ⟨wk, wq, bk, bq⟩ := acc
    by_cases hc : c = 'K' ∨ c = 'Q' ∨ c = 'k' ∨ c = 'q'
    · have hbad2 : ∃ d ∈ cs, ¬(d = 'K' ∨ d = 'Q' ∨ d = 'k' ∨ d = 'q') := by
        rcases hbad with ⟨d, hd, hdbad⟩
        rcases List.mem_cons.mp hd with rfl | hd2
        · exact absurd hc hdbad
        · exact ⟨d, hd2, hdbad⟩
      rcases hc with rfl | rfl | rfl | rfl <;> simp [castlingLoop, ih _ hbad2]
    · push_neg at hc
      obtain ⟨h1, h2, h3, h4⟩ := hc
      simp [castlingLoop, h1, h2, h3, h4]

theorem castling_part_too_long (s : String) (h : s.data.length > 4) :
    castling_part s = .error FromFenError.IncorrectLength := by
  unfold castling_part
  rw [if_neg, if_pos h]
  intro hs
  subst hs
  simp at h

theorem castling_part_dup (s : String) (hne : s ≠ "-") (hlen : s.data.length ≤ 4)
    (hdup : ¬ s.data.Nodup) :
    castling_part s = .error FromFenError.RepeatingCharactersInCastlingPart := by
  unfold castling_part
  rw [if_neg hne, if_neg (by omega), if_pos hdup]

theorem castling_part_ok (s : String) (hne : s ≠ "-") (hlen : s.data.length ≤ 4)
    (hnd : s.data.Nodup) (hall : ∀ c ∈ s.data, c = 'K' ∨ c = 'Q' ∨ c = 'k' ∨ c = 'q') :
    castling_part s = .ok (decide ('K' ∈ s.data), decide ('Q' ∈ s.data),
      decide ('k' ∈ s.data), decide ('q' ∈ s.data)) := by
  unfold castling_part
  rw [if_neg hne, if_neg (by omega), if_neg (by simpa using hnd)]
  simpa using castlingLoop_mem s.data (false, false, false, false) hall

theorem castling_part_unknown (s : String) (hne : s ≠ "-") (hlen : s.data.length ≤ 4)
    (hnd : s.data.Nodup)
    (hbad : ∃ c ∈ s.data, ¬(c = 'K' ∨ c = 'Q' ∨ c = 'k' ∨ c = 'q')) :
    castling_part s = .error FromFenError.UnknownCharacter := by
  unfold castling_part
  rw [if_neg hne, if_neg (by omega), if_neg (by simpa using hnd)]
  exact castlingLoop_unknown s.data (false, false, false, false) hbad

theorem castling_canonical_roundtrip (C : String) (wk wq bk bq : Bool)
    (hcanon : C = "-" ∨ (C ≠ "" ∧ C.data.Sublist ['K', 'Q', 'k', 'q']))
    (h : castling_part C = .ok (wk, wq, bk, bq)) :
    castlingString wk wq bk bq = C := by
  rcases hcanon with rfl | ⟨hne, hsub⟩
  · revert wk wq bk bq
    decide
  · have hmem : C.data ∈ (['K', 'Q', 'k', 'q'] : List Char).sublists :=
      List.mem_sublists.mpr hsub
    have hLL : (['K', 'Q', 'k', 'q'] : List Char).sublists =
        [[], ['K'], ['Q'], ['K', 'Q'], ['k'], ['K', 'k'], ['Q', 'k'], ['K', 'Q', 'k'], ['q'],
         ['K', 'q'], ['Q', 'q'], ['K', 'Q', 'q'], ['k', 'q'], ['K', 'k', 'q'], ['Q', 'k', 'q'],
         ['K', 'Q', 'k', 'q']] := by decide
    rw [hLL] at hmem
    simp only [List.mem_cons, List.not_mem_nil, or_false] at hmem
    rcases hmem with h0|h0|h0|h0|h0|h0|h0|h0|h0|h0|h0|h0|h0|h0|h0|h0 <;>
      (have hC : C = String.mk _ := String.ext h0; subst hC) <;>
      first
        | exact absurd rfl hne
        | (revert wk wq bk bq
           decide)

theorem en_passant_part_wrong_length (s : String) (hne : s ≠ "-")
    (hlen : s.data.length ≠ 2) :
    en_passant_part s = .error FromFenError.IncorrectAmountOfTiles := by
  unfold en_passant_part
  rw [if_neg hne]
  split
  · rename_i c1 c2 heq
    rw [heq] at hlen
    simp at hlen
  · rfl

theorem en_passant_part_pair (c1 c2 : Char) :
    en_passant_part (String.mk [c1, c2]) =
      match fileOfChar c1 with
      | none => .error FromFenError.UnknownCharacter
      | some file =>
        match rankOfChar c2 with
        | none => .error FromFenError.UnknownCharacter
        | some rank => .ok (some (file, rank)) := by
  unfold en_passant_part
  rw [if_neg]
  intro h
  have := congrArg String.data h
  simp at this

theorem en_passant_part_ok_none (E : String) (h : en_passant_part E = .ok none) :
    E = "-" := by
  unfold en_passant_part at h
  split at h
  · assumption
  · split at h
    · split at h
      · exact absurd h (by simp)
      · split at h
        · exact absurd h (by simp)
        · exact absurd h (by simp)
    · exact absurd h (by simp)

theorem en_passant_part_ok_some (E : String) (x r : Nat)
    (h : en_passant_part E = .ok (some (x, r))) :
    ∃ c1 c2, E.data = [c1, c2] ∧ fileOfChar c1 = some x ∧ rankOfChar c2 = some r := by
  unfold en_passant_part at h
  split at h
  · exact absurd h (by simp)
  · split at h
    · rename_i c1 c2 heq
      split at h
      · exact absurd h (by simp)
      · rename_i xf hf
        split at h
        · exact absurd h (by simp)
        · rename_i xr hr
          have h2 : xf = x ∧ xr = r := by simpa using h
          exact ⟨c1, c2, heq, h2.1 ▸ hf, h2.2 ▸ hr⟩
    · exact absurd h (by simp)

theorem four_fields_eq (s P T C E : String)
    (hsdata : s.data = P.data ++ ' ' :: (T.data ++ ' ' :: (C.data ++ ' ' :: E.data))) :
    P ++ " " ++ T ++ " " ++ C ++ " " ++ E = s := by
  apply String.ext
  have hsp : (" " : String).data = [' '] := rfl
  simp [String.data_append, hsp, hsdata]

theorem joinSpace_cons (p q : List Char) (ps : List (List Char)) :
    joinSpace (p :: q :: ps) = p ++ ' ' :: joinSpace (q :: ps) := by
  cases ps <;> simp [joinSpace]

theorem split_four_join (s P T C E : String)
    (hsplit : splitSpace s.data = [P.data, T.data, C.data, E.data]) :
    s.data = P.data ++ ' ' :: (T.data ++ ' ' :: (C.data ++ ' ' :: E.data)) := by
  have h := joinSpace_splitSpace s.data
  rw [hsplit] at h
  rw [← h, joinSpace_cons, joinSpace_cons, joinSpace_cons]
  simp [joinSpace]

theorem fen_ep_none {β : Type} (M : BoardModel β) (g : Game β)
    (hep : g.en_passant = none) :
    Game.fen M g = some (M.fen g.board ++ " " ++ turnString g.turn ++ " " ++
      castlingString g.white_kingside_castle g.white_queenside_castle
        g.black_kingside_castle g.black_queenside_castle ++ " " ++ "-") := by
  simp only [Game.fen, hep]

theorem fen_ep_white {β : Type} (M : BoardModel β) (g : Game β) (x y : Nat)
    (hep : g.en_passant = some (x, y)) (hW : g.turn = Color.White)
    (hy1 : 1 ≤ y) (hy8 : y ≤ 8) :
    Game.fen M g = some (M.fen g.board ++ " " ++ turnString g.turn ++ " " ++
      castlingString g.white_kingside_castle g.white_queenside_castle
        g.black_kingside_castle g.black_queenside_castle ++ " " ++
      String.mk [Char.ofNat (('a'.toNat + x) % 256),
        Char.ofNat (('1'.toNat + (7 - (y - 1))) % 256)]) := by
  simp only [Game.fen, hep, hW]
  rw [if_pos (Or.inr (by omega))]
  rw [if_pos (by simp; omega)]
  simp

theorem fen_ep_black {β : Type} (M : BoardModel β) (g : Game β) (x y : Nat)
    (hep : g.en_passant = some (x, y)) (hB : g.turn = Color.Black)
    (hy6 : y ≤ 6) :
    Game.fen M g = some (M.fen g.board ++ " " ++ turnString g.turn ++ " " ++
      castlingString g.white_kingside_castle g.white_queenside_castle
        g.black_kingside_castle g.black_queenside_castle ++ " " ++
      String.mk [Char.ofNat (('a'.toNat + x) % 256),
        Char.ofNat (('1'.toNat + (7 - (y + 1))) % 256)]) := by
  simp only [Game.fen, hep, hB]
  rw [if_pos (Or.inl trivial : True ∨ 0 < y)]
  rw [if_pos (by simp; omega)]
  simp

/-- C1 (amended): for every FEN string `s` that `Game::from_fen` accepts,
re-encoding with `Game::fen` reproduces `s` exactly, *provided* the castling
field of `s` is written in the serializer's canonical form (either `"-"` or a
nonempty subsequence of `"KQkq"` in that order) and the external board codec
round-trips the placement field.  The unconditional claim fails: an accepted
castling field with the same letters in another order re-encodes
differently. -/
theorem round_trip_canonical {β : Type} (M : BoardModel β) (s P T C E : String)
    (g : Game β)
    (hsplit : splitSpace s.data = [P.data, T.data, C.data, E.data])
    (hM : ∀ p b, M.from_fen p = some b → M.fen b = p)
    (hcanon : C = "-" ∨ (C ≠ "" ∧ C.data.Sublist ['K', 'Q', 'k', 'q']))
    (hdec : Game.from_fen M s = RunResult.ok g) :
    Game.fen M g = some s := by
  obtain ⟨P2, T2, C2, E2, hsplit2, hb, ht, hc, he⟩ := from_fen_ok_elim M s g hdec
  rw [hsplit] at hsplit2
  have h4 : P.data = P2.data ∧ T.data = T2.data ∧ C.data = C2.data ∧ E.data = E2.data := by
    simpa using hsplit2
  obtain rfl : P = P2 := String.ext h4.1
  obtain rfl : T = T2 := String.ext h4.2.1
  obtain rfl : C = C2 := String.ext h4.2.2.1
  obtain rfl : E = E2 := String.ext h4.2.2.2
  have hboard : M.fen g.board = P := hM P g.board hb
  have hcastl : castlingString g.white_kingside_castle g.white_queenside_castle
      g.black_kingside_castle g.black_queenside_castle = C :=
    castling_canonical_roundtrip C _ _ _ _ hcanon hc
  have hsdata := split_four_join s P T C E hsplit
  have hT : turnString g.turn = T := by
    rcases ht with ⟨rfl, hW⟩ | ⟨rfl, hB⟩ <;> rw [‹g.turn = _›] <;> rfl
  have ha : ('a'.toNat : Nat) = 97 := by decide
  have h1n : ('1'.toNat : Nat) = 49 := by decide
  rcases he with ⟨hepE, hepg⟩ | ⟨x, r, hepE, hepg, hblack⟩
  · have hE : E = "-" := en_passant_part_ok_none E hepE
    subst hE
    rw [fen_ep_none M g hepg, hboard, hT, hcastl]
    exact congrArg some (four_fields_eq s P T C "-" hsdata)
  · obtain ⟨c1, c2, hEdata, hf, hr⟩ := en_passant_part_ok_some E x r hepE
    obtain ⟨hx7, hxc⟩ := fileOfChar_some c1 x hf
    obtain ⟨hr7, hrc⟩ := rankOfChar_some c2 r hr
    have hch1 : Char.ofNat (('a'.toNat + x) % 256) = c1 :=
      char_toNat_eq c1 _ (by omega) (by rw [ha]; exact hxc)
    rcases ht with ⟨rfl, hW⟩ | ⟨rfl, hB⟩
    · have hepg2 : g.en_passant = some (x, r + 1) := by simpa [hW] using hepg
      rw [fen_ep_white M g x (r + 1) hepg2 hW (by omega) (by omega)]
      have hch2 : Char.ofNat (('1'.toNat + (7 - (r + 1 - 1))) % 256) = c2 := by
        have : r + 1 - 1 = r := by omega
        rw [this]
        exact char_toNat_eq c2 _ (by omega) (by rw [h1n]; exact hrc)
      rw [hboard, hT, hcastl, hch1, hch2]
      have hE : String.mk [c1, c2] = E := String.ext hEdata.symm
      rw [hE]
      exact congrArg some (four_fields_eq s P "w" C E hsdata)
    · have hr1 : 1 ≤ r := hblack hB
      have hepg2 : g.en_passant = some (x, r - 1) := by simpa [hB] using hepg
      rw [fen_ep_black M g x (r - 1) hepg2 hB (by omega)]
      have hch2 : Char.ofNat (('1'.toNat + (7 - (r - 1 + 1))) % 256) = c2 := by
        have : r - 1 + 1 = r := by omega
        rw [this]
        exact char_toNat_eq c2 _ (by omega) (by rw [h1n]; exact hrc)
      rw [hboard, hT, hcastl, hch1, hch2]
      have hE : String.mk [c1, c2] = E := String.ext hEdata.symm
      rw [hE]
      exact congrArg some (four_fields_eq s P "b" C E hsdata)

/-- C1 counterexample: `"p w qK -"` is accepted by the decoder (castling
field `"qK"`: no duplicates, both letters valid), but re-encoding renders the
castling field in the fixed order K, Q, k, q, producing `"p w Kq -"`, which
differs from the input.  So `encode(decode(s)) = s` does not hold for every
accepted `s`. -/
theorem c1_castling_order_counterexample :
    Game.from_fen TB "p w qK -" =
      RunResult.ok (⟨"p", Color.White, none, true, false, false, true⟩ : Game String)
    ∧ Game.fen TB (⟨"p", Color.White, none, true, false, false, true⟩ : Game String) =
      some "p w Kq -"
    ∧ ("p w Kq -" : String) ≠ "p w qK -" :=
  ⟨by decide, by decide, by decide⟩

/-- C1 witness: the round-trip theorem applied to the concrete FEN string
`"p b KQkq c3"` over the board model with a White pawn on internal tile
(2, 4). -/
theorem c1_round_trip_witness :
    splitSpace ("p b KQkq c3" : String).data =
      [("p" : String).data, ("b" : String).data, ("KQkq" : String).data, ("c3" : String).data]
    ∧ (("KQkq" : String) = "-" ∨
        (("KQkq" : String) ≠ "" ∧ ("KQkq" : String).data.Sublist ['K', 'Q', 'k', 'q']))
    ∧ Game.from_fen TBpawn "p b KQkq c3" =
        RunResult.ok (⟨"p", Color.Black, some (2, 4), true, true, true, true⟩ : Game String)
    ∧ Game.fen TBpawn (⟨"p", Color.Black, some (2, 4), true, true, true, true⟩ : Game String) =
        some "p b KQkq c3" :=
  ⟨by decide, by decide, by decide,
    round_trip_canonical TBpawn "p b KQkq c3" "p" "b" "KQkq" "c3"
      (⟨"p", Color.Black, some (2, 4), true, true, true, true⟩ : Game String)
      (by decide) (fun p b h => (Option.some.inj h).symm) (by decide) (by decide)⟩

/-- C2 (code-bug evidence): the decoder indexes the split fields *before*
checking the field count, so an input with fewer than 4 space-separated
tokens panics (out-of-bounds index) instead of returning
`IncorrectAmountOfParts`; with more than 4 tokens the check does fire before
any field parsing. -/
theorem c2_field_count_evaluation :
    Game.from_fen TB "x" = RunResult.panic
    ∧ Game.from_fen TB "a b c d e" = RunResult.err FromFenError.IncorrectAmountOfParts :=
  ⟨by decide, by decide⟩

/-- C3 (code-bug evidence): the decoder is not total.  A 3-token input
panics on the out-of-bounds field index, and a 4-token input with Black to
move and en-passant landing square on standard rank 8 (internal rank 0)
panics on the `usize` underflow `ep_y - 1`. -/
theorem c3_decode_panic_evaluation :
    Game.from_fen TB "p b -" = RunResult.panic
    ∧ Game.from_fen TB "p b - a8" = RunResult.panic :=
  ⟨by decide, by decide⟩

/-- C4 (code-bug evidence): with Black to move and landing square `h8`
(internal rank 0), the translated occupied square lies off the board, so by
the claim the decode should fail with `InvalidEnPassant`; instead the rank
translation `0 - 1` underflows `usize` and the code panics before any tile
lookup. -/
theorem c4_en_passant_underflow_evaluation :
    Game.from_fen TB "p b - h8" = RunResult.panic
    ∧ Game.from_fen TB "p b - h8" ≠ RunResult.err FromFenError.InvalidEnPassant :=
  ⟨by decide, by decide⟩

/-- C5: the en-passant field parser maps `"-"` to `none`; any other field
whose length is not exactly 2 fails with `IncorrectAmountOfTiles` (the
spec's WrongLength); a first character `a`-`h` maps to file 0-7 and a second
character `1`-`8` to the inverted internal rank `8 - digit`; any
out-of-range character (such as the `9` in `"e9"`) fails with
`UnknownCharacter`. -/
theorem c5_en_passant_field_codec :
    en_passant_part "-" = .ok none
    ∧ (∀ s : String, s ≠ "-" → s.data.length ≠ 2 →
        en_passant_part s = .error FromFenError.IncorrectAmountOfTiles)
    ∧ (∀ c1 c2 : Char, 97 ≤ c1.toNat → c1.toNat ≤ 104 → 49 ≤ c2.toNat → c2.toNat ≤ 56 →
        en_passant_part (String.mk [c1, c2]) =
          .ok (some (c1.toNat - 97, 8 - (c2.toNat - 48))))
    ∧ (∀ c1 c2 : Char, ¬(97 ≤ c1.toNat ∧ c1.toNat ≤ 104) →
        en_passant_part (String.mk [c1, c2]) = .error FromFenError.UnknownCharacter)
    ∧ (∀ c1 c2 : Char, 97 ≤ c1.toNat → c1.toNat ≤ 104 → ¬(49 ≤ c2.toNat ∧ c2.toNat ≤ 56) →
        en_passant_part (String.mk [c1, c2]) = .error FromFenError.UnknownCharacter)
    ∧ en_passant_part "e9" = .error FromFenError.UnknownCharacter := by
  refine ⟨by decide, en_passant_part_wrong_length, ?_, ?_, ?_, by decide⟩
  · intro c1 c2 h97 h104 h49 h56
    rw [en_passant_part_pair, fileOfChar_eq, rankOfChar_eq,
      if_pos ⟨h97, h104⟩, if_pos ⟨h49, h56⟩]
    have h : 56 - c2.toNat = 8 - (c2.toNat - 48) := by omega
    rw [h]
  · intro c1 c2 hbad
    rw [en_passant_part_pair, fileOfChar_eq, if_neg hbad]
  · intro c1 c2 h97 h104 hbad
    rw [en_passant_part_pair, fileOfChar_eq, rankOfChar_eq,
      if_pos ⟨h97, h104⟩, if_neg hbad]

/-- C5 witness: the parser applied to the concrete field `"e3"`. -/
theorem c5_en_passant_field_codec_witness :
    97 ≤ 'e'.toNat ∧ 'e'.toNat ≤ 104 ∧ 49 ≤ '3'.toNat ∧ '3'.toNat ≤ 56 ∧
    en_passant_part (String.mk ['e', '3']) =
      .ok (some ('e'.toNat - 97, 8 - ('3'.toNat - 48))) :=
  ⟨by decide, by decide, by decide, by decide,
    c5_en_passant_field_codec.2.2.1 'e' '3' (by decide) (by decide) (by decide) (by decide)⟩

/-- C6: the castling field parser maps `"-"` to all-false; more than 4
characters fails with `IncorrectLength` (the spec's TooLong); a repeated
character fails with `RepeatingCharactersInCastlingPart`; a character
outside `K`, `Q`, `k`, `q` fails with `UnknownCharacter`; otherwise the four
rights record exactly which letters occur, so the result is independent of
the characters' order (in particular `"Qk"` and `"kQ"` parse alike). -/
theorem c6_castling_field_codec :
    castling_part "-" = .ok (false, false, false, false)
    ∧ (∀ s : String, s.data.length > 4 →
        castling_part s = .error FromFenError.IncorrectLength)
    ∧ (∀ s : String, s ≠ "-" → s.data.length ≤ 4 → ¬ s.data.Nodup →
        castling_part s = .error FromFenError.RepeatingCharactersInCastlingPart)
    ∧ (∀ s : String, s ≠ "-" → s.data.length ≤ 4 → s.data.Nodup →
        (∃ c ∈ s.data, ¬(c = 'K' ∨ c = 'Q' ∨ c = 'k' ∨ c = 'q')) →
        castling_part s = .error FromFenError.UnknownCharacter)
    ∧ (∀ s : String, s ≠ "-" → s.data.length ≤ 4 → s.data.Nodup →
        (∀ c ∈ s.data, c = 'K' ∨ c = 'Q' ∨ c = 'k' ∨ c = 'q') →
        castling_part s = .ok (decide ('K' ∈ s.data), decide ('Q' ∈ s.data),
          decide ('k' ∈ s.data), decide ('q' ∈ s.data)))
    ∧ castling_part "Qk" = castling_part "kQ" :=
  ⟨by decide, castling_part_too_long, castling_part_dup, castling_part_unknown,
    castling_part_ok, by decide⟩

/-- C6 witness: the parser applied to the concrete field `"Qk"`. -/
theorem c6_castling_field_codec_witness :
    ("Qk" : String) ≠ "-" ∧ ("Qk" : String).data.length ≤ 4 ∧ ("Qk" : String).data.Nodup ∧
    castling_part "Qk" = .ok (decide ('K' ∈ ("Qk" : String).data),
      decide ('Q' ∈ ("Qk" : String).data), decide ('k' ∈ ("Qk" : String).data),
      decide ('q' ∈ ("Qk" : String).data)) :=
  ⟨by decide, by decide, by decide,
    c6_castling_field_codec.2.2.2.2.1 "Qk" (by decide) (by decide) (by decide) (by decide)⟩

/-- C7: when encoding a position with an en-passant entry (with coordinates
in the range a valid position provides), the encoder subtracts 1 from the
stored internal rank when White is to move and adds 1 when Black is to
move, and renders exactly two characters: the file mapped back to `a`-`h`
and the translated rank inverted back to standard numbering; a position
without an en-passant entry renders the field as `"-"`. -/
theorem c7_encode_en_passant {β : Type} (M : BoardModel β) (g : Game β) (x y : Nat) :
    (g.en_passant = some (x, y) → g.turn = Color.White → 1 ≤ y → y ≤ 8 →
      Game.fen M g = some (M.fen g.board ++ " " ++ "w" ++ " " ++
        castlingString g.white_kingside_castle g.white_queenside_castle
          g.black_kingside_castle g.black_queenside_castle ++ " " ++
        String.mk [Char.ofNat (('a'.toNat + x) % 256),
          Char.ofNat (('1'.toNat + (7 - (y - 1))) % 256)]))
    ∧ (g.en_passant = some (x, y) → g.turn = Color.Black → y ≤ 6 →
      Game.fen M g = some (M.fen g.board ++ " " ++ "b" ++ " " ++
        castlingString g.white_kingside_castle g.white_queenside_castle
          g.black_kingside_castle g.black_queenside_castle ++ " " ++
        String.mk [Char.ofNat (('a'.toNat + x) % 256),
          Char.ofNat (('1'.toNat + (7 - (y + 1))) % 256)]))
    ∧ (g.en_passant = none →
      Game.fen M g = some (M.fen g.board ++ " " ++ turnString g.turn ++ " " ++
        castlingString g.white_kingside_castle g.white_queenside_castle
          g.black_kingside_castle g.black_queenside_castle ++ " " ++ "-")) := by
  refine ⟨?_, ?_, fen_ep_none M g⟩
  · intro hep hW h1 h8
    have h := fen_ep_white M g x y hep hW h1 h8
    rwa [show turnString g.turn = "w" by rw [hW]; rfl] at h
  · intro hep hB h6
    have h := fen_ep_black M g x y hep hB h6
    rwa [show turnString g.turn = "b" by rw [hB]; rfl] at h

/-- C7 witness: encoding the concrete position with a White-to-move
en-passant entry on internal tile (4, 4) renders the field `"e5"`. -/
theorem c7_encode_en_passant_witness :
    (1 : Nat) ≤ 4 ∧ (4 : Nat) ≤ 8 ∧
    Game.fen TB (⟨"p", Color.White, some (4, 4), true, false, false, true⟩ : Game String) =
      some "p w Kq e5" :=
  ⟨by decide, by decide,
    ((c7_encode_en_passant TB
      (⟨"p", Color.White, some (4, 4), true, false, false, true⟩ : Game String) 4 4).1
      rfl rfl (by decide) (by decide)).trans (by decide)⟩

/-- C8: the encoder is total on every position produced by a successful
decode: it returns (without failing or panicking) the four rendered fields
joined by single spaces. -/
theorem c8_encode_total_on_decoded {β : Type} (M : BoardModel β) (s : String) (g : Game β)
    (hdec : Game.from_fen M s = RunResult.ok g) :
    ∃ epf : String,
      Game.fen M g = some (M.fen g.board ++ " " ++ turnString g.turn ++ " " ++
        castlingString g.white_kingside_castle g.white_queenside_castle
          g.black_kingside_castle g.black_queenside_castle ++ " " ++ epf) := by
  obtain ⟨P, T, C, E, hsplit, hb, ht, hc, he⟩ := from_fen_ok_elim M s g hdec
  rcases he with ⟨hepE, hepg⟩ | ⟨x, r, hepE, hepg, hblack⟩
  · exact ⟨"-", fen_ep_none M g hepg⟩
  · obtain ⟨c1, c2, hEdata, hf, hr⟩ := en_passant_part_ok_some E x r hepE
    obtain ⟨hx7, hxc⟩ := fileOfChar_some c1 x hf
    obtain ⟨hr7, hrc⟩ := rankOfChar_some c2 r hr
    cases hgt : g.turn with
    | White =>
      have hepg2 : g.en_passant = some (x, r + 1) := by simpa [hgt] using hepg
      have h := fen_ep_white M g x (r + 1) hepg2 hgt (by omega) (by omega)
      rw [hgt] at h
      exact ⟨_, h⟩
    | Black =>
      have hr1 : 1 ≤ r := hblack hgt
      have hepg2 : g.en_passant = some (x, r - 1) := by simpa [hgt] using hepg
      have h := fen_ep_black M g x (r - 1) hepg2 hgt (by omega)
      rw [hgt] at h
      exact ⟨_, h⟩

/-- C8 witness: the totality theorem applied to the position decoded from
the concrete FEN string `"p w - -"`. -/
theorem c8_encode_total_witness :
    Game.from_fen TB "p w - -" =
      RunResult.ok (⟨"p", Color.White, none, false, false, false, false⟩ : Game String)
    ∧ ∃ epf : String,
        Game.fen TB (⟨"p", Color.White, none, false, false, false, false⟩ : Game String) =
          some (TB.fen "p" ++ " " ++ turnString Color.White ++ " " ++
            castlingString false false false false ++ " " ++ epf) :=
  ⟨by decide,
    c8_encode_total_on_decoded TB "p w - -"
      (⟨"p", Color.White, none, false, false, false, false⟩ : Game String) (by decide)⟩

/-- C9: for every rights vector, the castling serializer agrees with the
spec's formulation — the letters of the set rights concatenated in the
fixed order K, Q, k, q — and yields `"-"` exactly when all four rights are
unset. -/
theorem c9_castling_serializer :
    (∀ wk wq bk bq : Bool, castlingString wk wq bk bq = castlingSerializeSpec wk wq bk bq)
    ∧ (∀ wk wq bk bq : Bool, castlingString wk wq bk bq = "-" ↔
        (wk = false ∧ wq = false ∧ bk = false ∧ bq = false)) := by
  constructor <;> (intro wk wq bk bq; cases wk <;> cases wq <;> cases bk <;> cases bq <;> decide)

/-- C10: in the castling field parser the error checks apply in the fixed
precedence length, then duplicates, then character validity: a field longer
than 4 characters yields `IncorrectLength` whatever its content, and a
field of length at most 4 with a repeated character yields
`RepeatingCharactersInCastlingPart` even when the character is outside
`K`, `Q`, `k`, `q` — in particular `"XX"`. -/
theorem c10_castling_error_precedence :
    (∀ s : String, s.data.length > 4 →
        castling_part s = .error FromFenError.IncorrectLength)
    ∧ (∀ s : String, s ≠ "-" → s.data.length ≤ 4 → ¬ s.data.Nodup →
        castling_part s = .error FromFenError.RepeatingCharactersInCastlingPart)
    ∧ castling_part "XX" = .error FromFenError.RepeatingCharactersInCastlingPart
    ∧ castling_part "XXXXX" = .error FromFenError.IncorrectLength :=
  ⟨castling_part_too_long, castling_part_dup, by decide, by decide⟩

/-- C10 witness: the precedence theorem applied to the concrete over-long
field `"XYZKQ"` of invalid characters. -/
theorem c10_castling_error_precedence_witness :
    ("XYZKQ" : String).data.length > 4 ∧
    castling_part "XYZKQ" = .error FromFenError.IncorrectLength :=
  ⟨by decide, c10_castling_error_precedence.1 "XYZKQ" (by decide)⟩
